import Mathlib

/-!
Shallow embedding of the block-scanning / KPI-aggregation pipeline of
`src/server/kpis.js` and `src/server/explorer.js` (partyhouse repository),
together with proofs about the frozen claims.

Conventions of the embedding:
* JS millisecond timestamps (`Date.now()`, `new Date(...)`) are `Int`.
* Wei amounts are `Nat`; ETH amounts (`value / 1e18`) are `Rat`.
* A fallible external call (`provider.getTransaction`, HTTP fetch, ...) is an
  explicit input of the embedded function: `Option`/`Bool` flags describe the
  outcome the environment produced, and the function is total.
* MongoDB collections are Lean lists; `insertAsync` appends at the end;
  `findOneAsync` with a sort by descending `blockNumber` is a list maximum.
-/

namespace Partyhouse

/-- JS millisecond timestamp. -/
abbrev Timestamp := Int

/-- A transaction as returned by `provider.getTransaction` (the fields the
pipeline reads: `tx.from`, `tx.to`, `tx.value`, `tx.type`).  `fromAddr`/`toAddr`
embed `tx.from`/`tx.to`; `none` means the field is null/absent. -/
structure Tx where
  fromAddr : Option String
  toAddr : Option String
  value : Nat
  txType : Nat
deriving Repr, DecidableEq

/-- A row of `AddressActivityCollection` as inserted by `processNewBlocks` /
`backfillBridgeActivity` (kpis.js lines 266-270 and 1035-1039). -/
structure ActivityEvent where
  address : String
  timestamp : Timestamp
  blockNumber : Nat
deriving Repr, DecidableEq

/-- The `type` field of a `BridgeActivityCollection` row. -/
inductive BridgeKind
  | deposit
  | withdrawal
deriving Repr, DecidableEq

/-- A row of `BridgeActivityCollection` (kpis.js lines 283-292, 304-313,
1053-1062, 1075-1084). -/
structure BridgeEvent where
  txHash : String
  type : BridgeKind
  fromAddr : String
  toAddr : Option String
  value : Rat
  timestamp : Timestamp
  blockNumber : Nat
  l2TxHash : String
deriving Repr, DecidableEq

/-- Embedding of JavaScript `String.prototype.toLowerCase` on the ASCII
strings the pipeline handles (hex addresses): lowercase each character. -/
def lowerString (s : String) : String := ⟨s.data.map Char.toLower⟩

/-- The ArbSys precompile address used as the withdrawal bridge entry point
(kpis.js lines 302 and 982). -/
def ARBSYS_ADDRESS : String := "0x0000000000000000000000000000000000000064"

/-- The `SYSTEM_ADDRESSES` exclusion list (kpis.js lines 209-228). -/
def SYSTEM_ADDRESSES : List String :=
  [ "0x0000000000000000000000000000000000000000"
  , "0x0000000000000000000000000000000000000001"
  , "0x0000000000000000000000000000000000000002"
  , "0x0000000000000000000000000000000000000064"
  , "0x0000000000000000000000000000000000000065"
  , "0x0000000000000000000000000000000000000066"
  , "0x0000000000000000000000000000000000000067"
  , "0x0000000000000000000000000000000000000068"
  , "0x000000000000000000000000000000000000006b"
  , "0x000000000000000000000000000000000000006c"
  , "0x000000000000000000000000000000000000006d"
  , "0x000000000000000000000000000000000000006e"
  , "0x000000000000000000000000000000000000006f"
  , "0x0000000000000000000000000000000000000070"
  , "0x0000000000000000000000000000000000000071"
  , "0x0000000000000000000000000000000000000072"
  , "0x0000000000000000000000000000000000000073"
  , "0x00000000000000000000000000000000000a4b05" ]

/-- The outcome of the per-transaction external calls made while processing one
transaction hash of a block: the `getTransaction` result (`none` when the call
threw or returned null), whether `getTransactionReceipt` succeeded (only probed
on the type-105 deposit path of `processNewBlocks`), and the value produced by
`fetchDepositAmount` (which returns `0` on its internal failures and never
throws, kpis.js lines 86-119). -/
structure TxFetch where
  txHash : String
  tx : Option Tx
  receiptOk : Bool
  depositAmount : Rat
deriving Repr, DecidableEq

/-- The outcome of `getBlock(i)` for one height of the scanned range: `txs` is
`none` when the block was null or had no `transactions` field, otherwise the
list of transaction-hash fetch outcomes.  `timestamp` is the already-converted
`new Date(block.timestamp * 1000)` value. -/
structure BlockFetch where
  blockNumber : Nat
  timestamp : Timestamp
  txs : Option (List TxFetch)
deriving Repr, DecidableEq

/-- The two collections written by ingestion. -/
structure DB where
  activity : List ActivityEvent
  bridge : List BridgeEvent
deriving Repr, DecidableEq

/-- Per-transaction step of `processNewBlocks` (kpis.js lines 261-319):
the pair of ActivityEvents and BridgeEvents inserted for this transaction.
The activity insert is unconditional once `tx` and `tx.from` are present; the
deposit insert happens when `tx.type === 105` and the receipt fetch succeeded
(a receipt failure is swallowed by the inner catch); the withdrawal insert is
an independent `if` that runs afterwards; neither bridge insert checks whether
the `txHash` is already persisted. -/
def processTxIncremental (bn : Nat) (ts : Timestamp) (f : TxFetch) :
    List ActivityEvent × List BridgeEvent :=
  match f.tx with
  | none => ([], [])
  | some t =>
    match t.fromAddr with
    | none => ([], [])
    | some sender =>
      let act : ActivityEvent := ⟨lowerString sender, ts, bn⟩
      let deps : List BridgeEvent :=
        if t.txType = 105 then
          if f.receiptOk then
            [⟨f.txHash, BridgeKind.deposit, lowerString sender,
              t.toAddr.map lowerString, f.depositAmount, ts, bn, f.txHash⟩]
          else []
        else []
      let wds : List BridgeEvent :=
        match t.toAddr with
        | none => []
        | some dest =>
          if lowerString dest = ARBSYS_ADDRESS ∧ 0 < t.value then
            [⟨f.txHash, BridgeKind.withdrawal, lowerString sender,
              some ARBSYS_ADDRESS, (t.value : Rat) / (10 ^ 18 : Rat), ts, bn,
              f.txHash⟩]
          else []
      ([act], deps ++ wds)

/-- Append the events produced for one transaction to the collections. -/
def insertEvents (db : DB) (acts : List ActivityEvent)
    (brs : List BridgeEvent) : DB :=
  ⟨db.activity ++ acts, db.bridge ++ brs⟩

/-- Per-block step of `processNewBlocks` (kpis.js lines 256-320): skip a null
block / missing transactions, otherwise process each transaction hash. -/
def processBlockIncremental (db : DB) (b : BlockFetch) : DB :=
  match b.txs with
  | none => db
  | some fs =>
    fs.foldl
      (fun d f =>
        let out := processTxIncremental b.blockNumber b.timestamp f
        insertEvents d out.1 out.2)
      db

/-- The incremental scan of `processNewBlocks` over the fetched block range
(kpis.js lines 255-325). -/
def processNewBlocksScan (db : DB) (blocks : List BlockFetch) : DB :=
  blocks.foldl processBlockIncremental db

/-- The resume point read at the start of `processNewBlocks` (kpis.js lines
240-243): the greatest `blockNumber` among persisted ActivityEvents, `none`
when the collection is empty. -/
def lastProcessedBlock (db : DB) : Option Nat :=
  (db.activity.map (fun e => e.blockNumber)).max?

/-- The first block attempted by the next incremental scan (kpis.js line 245):
`lastActivity.blockNumber + 1`, or `Math.max(0, currentBlock - 100)` when no
activity row exists (truncated subtraction on `Nat` matches the `Math.max`). -/
def startBlockIncremental (db : DB) (currentBlock : Nat) : Nat :=
  match lastProcessedBlock db with
  | some h => h + 1
  | none => currentBlock - 100

/-- The `findOneAsync({ txHash })` existence probe of `backfillBridgeActivity`
(kpis.js lines 1048 and 1073). -/
def bridgeHasTx (brs : List BridgeEvent) (h : String) : Bool :=
  brs.any (fun b => b.txHash = h)

/-- Per-transaction step of `backfillBridgeActivity` (kpis.js lines 1027-1094):
activity insert is unconditional; each bridge insert is guarded by a
`findOneAsync({ txHash })` check against the current state of the collection
(so a deposit inserted for this very transaction also blocks the subsequent
withdrawal insert); the backfill deposit path performs no receipt fetch. -/
def processTxBackfill (bn : Nat) (ts : Timestamp) (db : DB) (f : TxFetch) :
    DB :=
  match f.tx with
  | none => db
  | some t =>
    match t.fromAddr with
    | none => db
    | some sender =>
      let db1 : DB := ⟨db.activity ++ [⟨lowerString sender, ts, bn⟩], db.bridge⟩
      let db2 : DB :=
        if t.txType = 105 then
          if bridgeHasTx db1.bridge f.txHash then db1
          else
            ⟨db1.activity,
              db1.bridge ++
                [⟨f.txHash, BridgeKind.deposit, lowerString sender,
                  t.toAddr.map lowerString, f.depositAmount, ts, bn,
                  f.txHash⟩]⟩
        else db1
      match t.toAddr with
      | none => db2
      | some dest =>
        if lowerString dest = ARBSYS_ADDRESS ∧ 0 < t.value then
          if bridgeHasTx db2.bridge f.txHash then db2
          else
            ⟨db2.activity,
              db2.bridge ++
                [⟨f.txHash, BridgeKind.withdrawal, lowerString sender,
                  some ARBSYS_ADDRESS, (t.value : Rat) / (10 ^ 18 : Rat), ts,
                  bn, f.txHash⟩]⟩
        else db2

/-- Per-block step of `backfillBridgeActivity` (kpis.js lines 1020-1105): a
failed or empty block is skipped. -/
def processBlockBackfill (db : DB) (b : BlockFetch) : DB :=
  match b.txs with
  | none => db
  | some fs => fs.foldl (processTxBackfill b.blockNumber b.timestamp) db

/-- The historical scan of `backfillBridgeActivity` over the fetched block
range. -/
def backfillScan (db : DB) (blocks : List BlockFetch) : DB :=
  blocks.foldl processBlockBackfill db

/-- Pairwise distinctness of the `txHash` values persisted in
`BridgeActivityCollection`. -/
abbrev bridgeHashesNodup (brs : List BridgeEvent) : Prop :=
  (brs.map (fun b => b.txHash)).Nodup

/-- The process-wide ETH price cache slot `ethPriceCache` (kpis.js line 12). -/
structure PriceCache where
  price : Option Rat
  timestamp : Timestamp
deriving Repr, DecidableEq

/-- Cache TTL, 5 minutes in milliseconds (kpis.js line 13). -/
def PRICE_CACHE_TTL : Int := 5 * 60 * 1000

/-- The hardcoded fallback price (kpis.js line 78). -/
def DEFAULT_ETH_PRICE : Rat := 3000

/-- Embedding of `getEthPrice` (kpis.js lines 41-80) as a pure function of the
current cache slot, the current time, and the outcome of the CoinGecko fetch
(`none` covers a thrown fetch, a non-2xx response, and a missing or falsy
`data.ethereum.usd` field, all of which land in the catch block).  Returns the
price handed to the caller together with the cache slot left behind. -/
def getEthPrice (cache : PriceCache) (now : Timestamp)
    (fetchResult : Option Rat) : Rat × PriceCache :=
  match cache.price with
  | some p =>
    if now - cache.timestamp < PRICE_CACHE_TTL then (p, cache)
    else
      match fetchResult with
      | some q => (q, ⟨some q, now⟩)
      | none => (p, cache)
  | none =>
    match fetchResult with
    | some q => (q, ⟨some q, now⟩)
    | none => (DEFAULT_ETH_PRICE, cache)

/-- Milliseconds in one day. -/
def dayMs : Int := 24 * 60 * 60 * 1000

/-- Midnight truncation of a timestamp, embedding `setHours(0, 0, 0, 0)`. -/
def dayStart (t : Int) : Int := (t / dayMs) * dayMs

/-- Embedding of `calculateWeeklyActiveAddresses` (kpis.js lines 340-366): the
aggregation pipeline matches ActivityEvents with `timestamp >= now - 7d` whose
address is not in `SYSTEM_ADDRESSES`, groups by address, and counts the
groups; grouping-then-counting is the length of the deduplicated address
list. -/
def weeklyActivePred (sevenDaysAgo : Timestamp) (e : ActivityEvent) : Bool :=
  decide (sevenDaysAgo ≤ e.timestamp) && !(SYSTEM_ADDRESSES.contains e.address)

/-- Embedding of the `calculateWeeklyActiveAddresses` aggregation over the
match-group-count pipeline. -/
def calculateWeeklyActiveAddresses (events : List ActivityEvent)
    (now : Timestamp) : Nat :=
  (((events.filter (weeklyActivePred (now - 7 * dayMs))).map
    (fun e => e.address)).dedup).length

/-- A row of `DailyTransactionsCollection` / `WeeklyActiveAddressesCollection`
as inserted by the history backfills (`date`, `count`, and the noon-of-day
`timestamp`). -/
structure DailySnapshot where
  date : Int
  count : Nat
  timestamp : Int
deriving Repr, DecidableEq

/-- Embedding of `backfillDailyTransactionHistory` (kpis.js lines 817-854):
for each of the last `days` calendar days one snapshot is inserted whose count
is the number of ActivityEvents with timestamp inside that day. -/
def backfillDailyTransactionHistory (events : List ActivityEvent) (now : Int)
    (days : Nat) : List DailySnapshot :=
  (List.range days).map
    (fun (i : Nat) =>
      let date := dayStart now - (i : Int) * dayMs
      let nextDay := date + dayMs
      let count :=
        (events.filter
          (fun e =>
            decide (date ≤ e.timestamp) && decide (e.timestamp < nextDay))).length
      ⟨date, count, date + 12 * 60 * 60 * 1000⟩)

/-- Embedding of `backfillWeeklyActiveAddressHistory` (kpis.js lines 860-912):
for each of the last `days` calendar days one snapshot is inserted whose count
is the number of distinct non-system addresses active in the 7-day window
ending at the end of that day. -/
def backfillWeeklyActiveAddressHistory (events : List ActivityEvent)
    (now : Int) (days : Nat) : List DailySnapshot :=
  (List.range days).map
    (fun (i : Nat) =>
      let snapshotDate := dayStart now - (i : Int) * dayMs
      let sevenDaysBefore := snapshotDate - 7 * dayMs
      let snapshotEndOfDay := snapshotDate + dayMs
      let count :=
        (((events.filter
            (fun e =>
              decide (sevenDaysBefore ≤ e.timestamp) &&
                decide (e.timestamp < snapshotEndOfDay) &&
                !(SYSTEM_ADDRESSES.contains e.address))).map
          (fun e => e.address)).dedup).length
      ⟨snapshotDate, count, snapshotDate + 12 * 60 * 60 * 1000⟩)

/-- Outcome of an HTTP fetch of a JSON document of type `α`. -/
inductive FetchOutcome (α : Type)
  | ok (a : α)
  | httpErr (status : Nat)
  | netErr
deriving Repr, DecidableEq

/-- Whether a fetch outcome is a 2xx response with a body. -/
def FetchOutcome.isOk {α : Type} : FetchOutcome α → Bool
  | .ok _ => true
  | _ => false

/-- Embedding of `fetchBlockscoutStats` (explorer.js lines 26-41): a missing
explorer setting makes `getExplorerApiUrl` throw; a network error or non-2xx
response is caught, logged, and rethrown (`throw error` at the end of the
catch block), so every failure propagates to the caller as `Except.error`. -/
def fetchBlockscoutStats {α : Type} (configured : Bool)
    (resp : FetchOutcome α) : Except String α :=
  if !configured then .error "Block explorer URL not configured in settings"
  else
    match resp with
    | .ok s => .ok s
    | .httpErr _ => .error "Blockscout API error"
    | .netErr => .error "fetch failed"

/-- Embedding of `backfillDepositAmounts` (kpis.js lines 1300-1352).  Inputs:
the bridge collection, whether the initial `find(...).fetchAsync()` throws,
the per-hash result of `fetchDepositAmount` (total, never throws), and whether
the per-deposit `updateAsync` throws (caught per deposit, counted as an
error).  The outer catch rethrows (`throw error` at line 1350), so a failing
initial query propagates as `Except.error`; otherwise the run returns
`(updated, errors)` counters. -/
def backfillDepositAmounts (bridge : List BridgeEvent) (findFails : Bool)
    (amountOf : String → Rat) (updateFails : String → Bool) :
    Except String (Nat × Nat) :=
  if findFails then .error "Error in backfillDepositAmounts"
  else
    let depositsToUpdate :=
      bridge.filter (fun b => b.type = BridgeKind.deposit ∧ b.value = 0)
    let counters :=
      depositsToUpdate.foldl
        (fun (ue : Nat × Nat) d =>
          if 0 < amountOf d.txHash then
            if updateFails d.txHash then (ue.1, ue.2 + 1)
            else (ue.1 + 1, ue.2)
          else (ue.1, ue.2 + 1))
        (0, 0)
    .ok counters

/-! Concrete inputs used by counterexamples and witnesses. -/

/-- A plain L2-to-L1 withdrawal transaction: sender present, `to` is the
ArbSys precompile, positive value, ordinary transaction type. -/
def withdrawTxFetch : TxFetch :=
  ⟨"0xw1",
    some ⟨some "0xAAA", some "0x0000000000000000000000000000000000000064",
      1000000000000000000, 0⟩,
    true, 0⟩

/-- A block containing only `withdrawTxFetch`. -/
def withdrawBlock : BlockFetch := ⟨7, 0, some [withdrawTxFetch]⟩

/-- A type-105 deposit transaction whose `to` is also the ArbSys precompile
and whose value is positive, with a successful receipt fetch. -/
def depositWithdrawTxFetch : TxFetch :=
  ⟨"0xd1",
    some ⟨some "0xBBB", some "0x0000000000000000000000000000000000000064", 5,
      105⟩,
    true, 2⟩

/-- A persisted activity row at block height 5. -/
def seedActivity : ActivityEvent := ⟨"0xaaa", 0, 5⟩

/-- Block 6 fetched successfully but containing no transactions. -/
def emptyBlock6 : BlockFetch := ⟨6, 0, some []⟩

/-- Whether an embedded fallible operation returned normally rather than
throwing to its caller. -/
def exceptOk {ε α : Type} : Except ε α → Bool
  | .ok _ => true
  | .error _ => false

/-- C1 counterexample: replaying the same one-block range twice through the
incremental scan (`processNewBlocks`) produces two BridgeEvents with the same
`txHash` — its bridge inserts are unconditional, so the claimed txHash guard
does not hold for the incremental scan. -/
theorem c1_counterexample :
    ¬ bridgeHashesNodup
        ((processNewBlocksScan (processNewBlocksScan ⟨[], []⟩ [withdrawBlock])
            [withdrawBlock]).bridge) := by
  decide

/-- C2 counterexample: a single type-105 transaction whose `to` is the bridge
entry address with positive value yields both a deposit and a withdrawal
BridgeEvent in the incremental scan — the withdrawal rule is an independent
`if`, not an `else if` of the deposit rule. -/
theorem c2_counterexample :
    (processTxIncremental 9 0 depositWithdrawTxFetch).2.map
        (fun b => (b.type, b.txHash)) =
      [(BridgeKind.deposit, "0xd1"), (BridgeKind.withdrawal, "0xd1")] := by
  decide

/-- C3 counterexample: after scanning block 6, which was fetched successfully
but contains no transactions, the resume point is still 5 and the next
incremental scan starts again at block 6, not at 7 — an empty block is
re-processed, contrary to the claim. -/
theorem c3_counterexample :
    lastProcessedBlock
        (processNewBlocksScan ⟨[seedActivity], []⟩ [emptyBlock6]) = some 5 ∧
      startBlockIncremental
          (processNewBlocksScan ⟨[seedActivity], []⟩ [emptyBlock6]) 6 = 6 := by
  decide

/-- C4 counterexample: the claim says `backfillDepositAmounts` and the
explorer stats fetch never throw to their callers, but `fetchBlockscoutStats`
rethrows on a non-2xx response (explorer.js `throw error`) and
`backfillDepositAmounts` rethrows when its initial query fails (kpis.js line
1350 `throw error`). -/
theorem c4_counterexample :
    @fetchBlockscoutStats Nat true (FetchOutcome.httpErr 500) =
        Except.error "Blockscout API error" ∧
      backfillDepositAmounts [] true (fun _ => 0) (fun _ => false) =
        Except.error "Error in backfillDepositAmounts" :=
  ⟨rfl, rfl⟩

/-- C4 (amended): public KPI operations are best-effort except for the two
operations the claim singles out: `fetchBlockscoutStats` returns normally
exactly when the explorer is configured and the HTTP fetch returned 2xx, and
rethrows every failure to its caller; `backfillDepositAmounts` returns
normally exactly when its initial deposit query does not throw, and rethrows
that failure (per-deposit failures are swallowed and only counted). -/
theorem c4_error_propagation :
    (∀ (α : Type) (c : Bool) (r : FetchOutcome α),
        exceptOk (fetchBlockscoutStats c r) = (c && r.isOk)) ∧
      ∀ (bridge : List BridgeEvent) (findFails : Bool)
        (amountOf : String → Rat) (updateFails : String → Bool),
        exceptOk (backfillDepositAmounts bridge findFails amountOf updateFails) =
          !findFails := by
  constructor
  · intro α c r
    cases c <;> cases r <;> rfl
  · intro bridge findFails amountOf updateFails
    cases findFails <;> rfl

/-- C5: `getEthPrice` never throws (it is a total function of its inputs) and
follows the fallback chain exactly: a fresh cached price is returned without
consulting the fetch result; otherwise a successful refresh is returned and
cached; a failed refresh falls back to the stale cached price when one
exists; and with no cache at all the hardcoded default is returned. -/
theorem c5_getEthPrice_fallback_chain (cache : PriceCache) (now : Timestamp)
    (fetchResult : Option Rat) :
    (∀ p, cache.price = some p → now - cache.timestamp < PRICE_CACHE_TTL →
        getEthPrice cache now fetchResult = (p, cache)) ∧
      (∀ q, fetchResult = some q →
        (cache.price = none ∨ ¬ now - cache.timestamp < PRICE_CACHE_TTL) →
        getEthPrice cache now fetchResult = (q, ⟨some q, now⟩)) ∧
      (∀ p, cache.price = some p →
        ¬ now - cache.timestamp < PRICE_CACHE_TTL → fetchResult = none →
        getEthPrice cache now fetchResult = (p, cache)) ∧
      (cache.price = none → fetchResult = none →
        getEthPrice cache now fetchResult = (DEFAULT_ETH_PRICE, cache)) := by
  refine ⟨?_, ?_, ?_, ?_⟩
  · intro p hp hlt
    simp [getEthPrice, hp, hlt]
  · intro q hq hcase
    cases hc : cache.price with
    | none => simp [getEthPrice, hc, hq]
    | some p =>
      rcases hcase with h | h
      · rw [hc] at h; exact absurd h (by simp)
      · simp [getEthPrice, hc, hq, h]
  · intro p hp hlt hf
    simp [getEthPrice, hp, hlt, hf]
  · intro hp hf
    simp [getEthPrice, hp, hf]

/-- C5 witness: the spec scenario — fetch fails, a cached price of 3200 is
2 minutes past the 5-minute TTL — returns the stale 3200, not the default. -/
theorem c5_witness :
    getEthPrice ⟨some 3200, 0⟩ 420000 none = (3200, ⟨some 3200, 0⟩) :=
  (c5_getEthPrice_fallback_chain ⟨some 3200, 0⟩ 420000 none).2.2.1 3200 rfl
    (by decide) rfl

/-- C10: `getEthPrice` writes the cache slot only after a successful upstream
fetch; in every other case (fresh hit, stale fallback, hardcoded default) the
slot is left untouched, and in particular the default-3000 path leaves the
slot empty so the next call re-attempts the upstream fetch. -/
theorem c10_cache_write_discipline (cache : PriceCache) (now : Timestamp)
    (fetchResult : Option Rat) :
    ((getEthPrice cache now fetchResult).2 = cache ∨
        ∃ q, fetchResult = some q ∧
          (getEthPrice cache now fetchResult).2 = ⟨some q, now⟩) ∧
      (cache.price = none → fetchResult = none →
        getEthPrice cache now fetchResult = (DEFAULT_ETH_PRICE, cache)) := by
  constructor
  · cases hc : cache.price with
    | none =>
      cases hf : fetchResult with
      | none => left; simp [getEthPrice, hc]
      | some q => right; exact ⟨q, rfl, by simp [getEthPrice, hc]⟩
    | some p =>
      by_cases hlt : now - cache.timestamp < PRICE_CACHE_TTL
      · left; simp [getEthPrice, hc, hlt]
      · cases hf : fetchResult with
        | none => left; simp [getEthPrice, hc, hlt]
        | some q => right; exact ⟨q, rfl, by simp [getEthPrice, hc, hlt]⟩
  · intro h1 h2
    simp [getEthPrice, h1, h2]

/-- C10 witness: with an empty cache and a failed fetch the default is
returned and the cache slot stays empty. -/
theorem c10_witness :
    getEthPrice ⟨none, 0⟩ 5 none = (DEFAULT_ETH_PRICE, ⟨none, 0⟩) :=
  (c10_cache_write_discipline ⟨none, 0⟩ 5 none).2 rfl rfl

/-- Condition under which the per-transaction step of the incremental scan
emits an ActivityEvent: the transaction was fetched and has a `from`. -/
def emitsActivityCond (f : TxFetch) : Prop :=
  ∃ t s, f.tx = some t ∧ t.fromAddr = some s

/-- Condition of the deposit rule of the incremental scan: type-105
transaction whose receipt fetch succeeded. -/
def depositCond (f : TxFetch) : Prop :=
  ∃ t, f.tx = some t ∧ t.txType = 105 ∧ f.receiptOk = true

/-- Condition of the withdrawal rule: `to` is the bridge entry address (after
lowercasing) and the value is positive. -/
def withdrawalCond (f : TxFetch) : Prop :=
  ∃ t d, f.tx = some t ∧ t.toAddr = some d ∧
    lowerString d = ARBSYS_ADDRESS ∧ 0 < t.value

/-- C2 (amended): every transaction yields at most one ActivityEvent, but the
withdrawal rule is not an `else if` of the deposit rule: the per-transaction
step emits up to two BridgeEvents, and emits exactly two precisely when the
deposit rule and the withdrawal rule both fire on the same transaction (a
type-105 transaction to the bridge entry address with positive value). -/
theorem c2_classifier_event_bounds (bn : Nat) (ts : Timestamp) (f : TxFetch) :
    (processTxIncremental bn ts f).1.length ≤ 1 ∧
      (processTxIncremental bn ts f).2.length ≤ 2 ∧
      ((processTxIncremental bn ts f).2.length = 2 ↔
        emitsActivityCond f ∧ depositCond f ∧ withdrawalCond f) := by
  obtain ⟨hash, tx, rOk, dep⟩ := f
  cases tx with
  | none =>
    simp [processTxIncremental, emitsActivityCond, depositCond,
      withdrawalCond]
  | some t =>
    obtain ⟨fa, ta, v, ty⟩ := t
    cases fa with
    | none =>
      simp [processTxIncremental, emitsActivityCond, depositCond,
        withdrawalCond]
    | some sender =>
      cases ta with
      | none =>
        by_cases hty : ty = 105 <;> cases rOk <;>
          simp [processTxIncremental, emitsActivityCond, depositCond,
            withdrawalCond, hty]
      | some dest =>
        by_cases hty : ty = 105 <;> cases rOk <;>
          by_cases hw : lowerString dest = ARBSYS_ADDRESS ∧ 0 < v <;>
            simp [processTxIncremental, emitsActivityCond, depositCond,
              withdrawalCond, hty, hw]

/-- C3 (amended): the resume point is the greatest block height that produced
a persisted ActivityEvent, not the last attempted height: scanning a block
with no transactions, a failed block fetch, or a block all of whose
transaction fetches fail leaves the collections — and hence the resume point
and the next scan's start block — unchanged, so such a block is re-attempted
by the next scan. -/
theorem c3_resume_point_requires_activity (db : DB) (b : BlockFetch) :
    (b.txs = none ∨ b.txs = some [] → processBlockIncremental db b = db) ∧
      ∀ fs, b.txs = some fs → (∀ f ∈ fs, f.tx = none) →
        processBlockIncremental db b = db := by
  constructor
  · rintro (h | h) <;> simp [processBlockIncremental, h]
  · intro fs hfs hall
    simp only [processBlockIncremental, hfs]
    clear hfs
    induction fs generalizing db with
    | nil => rfl
    | cons f rest ih =>
      have h1 : f.tx = none := hall f (by simp)
      have h2 : ∀ g ∈ rest, g.tx = none := fun g hg => hall g (by simp [hg])
      simp only [List.foldl_cons, processTxIncremental, h1, insertEvents,
        List.append_nil]
      exact ih _ h2

/-- C3 witness: scanning the concrete empty block leaves the concrete
database unchanged. -/
theorem c3_witness :
    processBlockIncremental ⟨[seedActivity], []⟩ emptyBlock6 =
      ⟨[seedActivity], []⟩ :=
  (c3_resume_point_requires_activity ⟨[seedActivity], []⟩ emptyBlock6).1
    (Or.inr rfl)

/-- An address active 8 days before the reference time `10 * dayMs`. -/
def c6EventA : ActivityEvent := ⟨"0xaaaa", 2 * dayMs, 1⟩

/-- An address active 6 days before the reference time. -/
def c6EventB : ActivityEvent := ⟨"0xbbbb", 4 * dayMs, 2⟩

/-- An address active 1 day before the reference time. -/
def c6EventC : ActivityEvent := ⟨"0xcccc", 9 * dayMs, 3⟩

/-- The rolling-window scenario events of the spec. -/
def c6ScenarioEvents : List ActivityEvent := [c6EventA, c6EventB, c6EventC]

/-- C6: the weekly-active-address count equals the cardinality of the set of
distinct addresses among events in the 7-day window after removing system
addresses; duplicating any existing ActivityEvent row leaves the count
unchanged; and in the spec scenario (addresses active 8, 6 and 1 days ago)
exactly the latter two are counted. -/
theorem c6_weekly_active_distinct (events : List ActivityEvent)
    (now : Timestamp) :
    calculateWeeklyActiveAddresses events now =
        ((events.filter (weeklyActivePred (now - 7 * dayMs))).map
          (fun e => e.address)).toFinset.card ∧
      (∀ e ∈ events, calculateWeeklyActiveAddresses (e :: events) now =
        calculateWeeklyActiveAddresses events now) ∧
      calculateWeeklyActiveAddresses c6ScenarioEvents (10 * dayMs) = 2 := by
  refine ⟨(List.card_toFinset _).symm, ?_, by decide⟩
  intro e he
  by_cases hp : weeklyActivePred (now - 7 * dayMs) e
  · have hmem : e.address ∈
        (events.filter (weeklyActivePred (now - 7 * dayMs))).map
          (fun e => e.address) :=
      List.mem_map.2 ⟨e, List.mem_filter.2 ⟨he, hp⟩, rfl⟩
    simp [calculateWeeklyActiveAddresses, List.filter_cons, hp,
      List.dedup_cons_of_mem hmem]
  · simp [calculateWeeklyActiveAddresses, List.filter_cons, hp]

/-- C6 witness: duplicating the 6-days-ago row in the concrete scenario does
not change the weekly-active count. -/
theorem c6_witness :
    calculateWeeklyActiveAddresses (c6EventB :: c6ScenarioEvents)
        (10 * dayMs) =
      calculateWeeklyActiveAddresses c6ScenarioEvents (10 * dayMs) :=
  (c6_weekly_active_distinct c6ScenarioEvents (10 * dayMs)).2.1 c6EventB
    (by decide)

/-- The reference time of the zero-fill scenario. -/
def c7Now : Int := 100 * dayMs

/-- Activity on only 3 of the last 7 calendar days (days 0, 2 and 4 counted
back from the reference day). -/
def c7Events : List ActivityEvent :=
  [⟨"0xaaaa", 100 * dayMs + 5, 1⟩, ⟨"0xbbbb", 98 * dayMs + 5, 2⟩,
    ⟨"0xcccc", 96 * dayMs + 5, 3⟩]

/-- C7: backfilling N days of daily-transaction or weekly-active-address
history inserts exactly one snapshot per day — exactly N snapshots — and days
without matching events get an explicit count of 0: backfilling 7 days with
activity on only 3 of them yields 7 snapshots, 4 of them zero. -/
theorem c7_backfill_zero_fill (events : List ActivityEvent) (now : Int)
    (days : Nat) :
    (backfillDailyTransactionHistory events now days).length = days ∧
      (backfillWeeklyActiveAddressHistory events now days).length = days ∧
      (backfillDailyTransactionHistory c7Events c7Now 7).map
          (fun s => s.count) =
        [1, 0, 1, 0, 1, 0, 0] := by
  refine ⟨?_, ?_, by decide⟩
  · unfold backfillDailyTransactionHistory
    rw [List.length_map, List.length_range]
  · unfold backfillWeeklyActiveAddressHistory
    rw [List.length_map, List.length_range]

/-- Appending one element never returns the original list. -/
theorem append_singleton_ne {α : Type} (l : List α) (a : α) : l ++ [a] ≠ l := by
  intro h
  have hlen := congrArg List.length h
  simp at hlen

/-- C8: when `tx.from` is absent (or the transaction fetch failed) neither
scan emits any event for the transaction, and whenever a BridgeEvent is
persisted for a transaction, an ActivityEvent was written for the same
transaction in the same pass — bridge classification only runs under the
`tx.from` guard, after the activity insert. -/
theorem c8_from_guard_accompaniment (bn : Nat) (ts : Timestamp) (db : DB)
    (f : TxFetch) :
    (f.tx = none →
        processTxIncremental bn ts f = ([], []) ∧
          processTxBackfill bn ts db f = db) ∧
      (∀ t, f.tx = some t → t.fromAddr = none →
        processTxIncremental bn ts f = ([], []) ∧
          processTxBackfill bn ts db f = db) ∧
      ((processTxIncremental bn ts f).2 ≠ [] →
        (processTxIncremental bn ts f).1 ≠ []) ∧
      ((processTxBackfill bn ts db f).bridge ≠ db.bridge →
        (processTxBackfill bn ts db f).activity ≠ db.activity) := by
  obtain ⟨hash, tx, rOk, dep⟩ := f
  cases tx with
  | none =>
    refine ⟨fun _ => ⟨rfl, rfl⟩, ?_, ?_, ?_⟩
    · intro t ht
      exact absurd ht (by simp)
    · intro h
      exact absurd rfl h
    · intro h
      exact absurd rfl h
  | some t =>
    obtain ⟨fa, ta, v, ty⟩ := t
    cases fa with
    | none =>
      refine ⟨fun h => absurd h (by simp), ?_, ?_, ?_⟩
      · intro u hu hfa
        refine ⟨?_, ?_⟩ <;> simp [processTxIncremental, processTxBackfill]
      · intro h
        exact absurd (by simp [processTxIncremental]) h
      · intro h
        exact absurd (by simp [processTxBackfill]) h
    | some sender =>
      refine ⟨fun h => absurd h (by simp), ?_, ?_, ?_⟩
      · intro u hu hfa
        have : u = ⟨some sender, ta, v, ty⟩ := by
          injection hu with hu
          exact hu.symm
        rw [this] at hfa
        exact absurd hfa (by simp)
      · intro _
        simp [processTxIncremental]
      · intro _
        have hact :
            (processTxBackfill bn ts db
                ⟨hash, some ⟨some sender, ta, v, ty⟩, rOk, dep⟩).activity =
              db.activity ++ [⟨lowerString sender, ts, bn⟩] := by
          simp only [processTxBackfill]
          cases ta <;> dsimp only <;> repeat' split
          all_goals rfl
        rw [hact]
        exact append_singleton_ne db.activity _

/-- C8 witness: a transaction whose fetch returned no `from` produces no
events in either scan. -/
theorem c8_witness :
    processTxIncremental 0 0 ⟨"0xh", none, true, 0⟩ = ([], []) ∧
      processTxBackfill 0 0 ⟨[], []⟩ ⟨"0xh", none, true, 0⟩ = ⟨[], []⟩ :=
  (c8_from_guard_accompaniment 0 0 ⟨[], []⟩ ⟨"0xh", none, true, 0⟩).1 rfl

/-- Proof helper: the per-transaction step of the incremental scan expressed
over the already-lowercased `from`/`to` fields, showing that the step reads
the raw fields only through `lowerString`. -/
def classifyLowered (bn : Nat) (ts : Timestamp) (hash : String) (rOk : Bool)
    (dep : Rat) (fa ta : Option String) (v ty : Nat) :
    List ActivityEvent × List BridgeEvent :=
  match fa with
  | none => ([], [])
  | some la =>
    let act : ActivityEvent := ⟨la, ts, bn⟩
    let deps : List BridgeEvent :=
      if ty = 105 then
        if rOk then [⟨hash, BridgeKind.deposit, la, ta, dep, ts, bn, hash⟩]
        else []
      else []
    let wds : List BridgeEvent :=
      match ta with
      | none => []
      | some lta =>
        if lta = ARBSYS_ADDRESS ∧ 0 < v then
          [⟨hash, BridgeKind.withdrawal, la, some ARBSYS_ADDRESS,
            (v : Rat) / (10 ^ 18 : Rat), ts, bn, hash⟩]
        else []
    ([act], deps ++ wds)

/-- The incremental per-transaction step factors through `lowerString` on the
address fields. -/
theorem processTxIncremental_eq_lowered (bn : Nat) (ts : Timestamp)
    (hash : String) (rOk : Bool) (dep : Rat) (t : Tx) :
    processTxIncremental bn ts ⟨hash, some t, rOk, dep⟩ =
      classifyLowered bn ts hash rOk dep (t.fromAddr.map lowerString)
        (t.toAddr.map lowerString) t.value t.txType := by
  obtain ⟨fa, ta, v, ty⟩ := t
  cases fa <;> cases ta <;>
    simp [processTxIncremental, classifyLowered]

/-- Proof helper: a membership test for a just-appended bridge row, used to
show the backfill withdrawal guard sees a deposit inserted for the same
transaction hash. -/
theorem bridgeHasTx_append_self (l : List BridgeEvent) (e : BridgeEvent) :
    bridgeHasTx (l ++ [e]) e.txHash = true := by
  simp [bridgeHasTx]

/-- Proof helper: the bridge collection produced by the backfill
per-transaction step is either unchanged, extended by the deposit row, or
extended by the withdrawal row (never both, because the withdrawal guard sees
the deposit row's `txHash`). -/
theorem processTxBackfill_bridge_cases (bn : Nat) (ts : Timestamp) (db : DB)
    (hash : String) (rOk : Bool) (dep : Rat) (sender : String)
    (ta : Option String) (v ty : Nat) :
    (processTxBackfill bn ts db
          ⟨hash, some ⟨some sender, ta, v, ty⟩, rOk, dep⟩).bridge =
        db.bridge ∨
      (bridgeHasTx db.bridge hash = false ∧
        (processTxBackfill bn ts db
            ⟨hash, some ⟨some sender, ta, v, ty⟩, rOk, dep⟩).bridge =
          db.bridge ++
            [⟨hash, BridgeKind.deposit, lowerString sender,
              ta.map lowerString, dep, ts, bn, hash⟩]) ∨
      ∃ dest, ta = some dest ∧ lowerString dest = ARBSYS_ADDRESS ∧
        bridgeHasTx db.bridge hash = false ∧
        (processTxBackfill bn ts db
            ⟨hash, some ⟨some sender, ta, v, ty⟩, rOk, dep⟩).bridge =
          db.bridge ++
            [⟨hash, BridgeKind.withdrawal, lowerString sender,
              some ARBSYS_ADDRESS, (v : Rat) / (10 ^ 18 : Rat), ts, bn,
              hash⟩] := by
  cases ta with
  | none =>
    by_cases hty : ty = 105
    · by_cases hd : bridgeHasTx db.bridge hash
      · exact Or.inl (by simp [processTxBackfill, hty, hd])
      · exact Or.inr (Or.inl ⟨by simpa using hd,
          by simp [processTxBackfill, hty, hd]⟩)
    · exact Or.inl (by simp [processTxBackfill, hty])
  | some dest =>
    by_cases hw : lowerString dest = ARBSYS_ADDRESS ∧ 0 < v
    · by_cases hty : ty = 105
      · by_cases hd : bridgeHasTx db.bridge hash
        · exact Or.inl (by simp [processTxBackfill, hty, hd, hw])
        · refine Or.inr (Or.inl ⟨by simpa using hd, ?_⟩)
          have hseen := bridgeHasTx_append_self db.bridge
            ⟨hash, BridgeKind.deposit, lowerString sender,
              some ARBSYS_ADDRESS, dep, ts, bn, hash⟩
          simp [processTxBackfill, hty, hd, hw, hseen]
      · by_cases hd : bridgeHasTx db.bridge hash
        · exact Or.inl (by simp [processTxBackfill, hty, hd, hw])
        · exact Or.inr (Or.inr ⟨dest, rfl, hw.1, by simpa using hd,
            by simp [processTxBackfill, hty, hd, hw]⟩)
    · by_cases hty : ty = 105
      · by_cases hd : bridgeHasTx db.bridge hash
        · exact Or.inl (by simp [processTxBackfill, hty, hd, hw])
        · exact Or.inr (Or.inl ⟨by simpa using hd,
            by simp [processTxBackfill, hty, hd, hw]⟩)
      · exact Or.inl (by simp [processTxBackfill, hty, hw])

/-- C9: every address persisted by the per-transaction step — the
ActivityEvent `address`, the BridgeEvent `from`, and the BridgeEvent `to`
when non-null — is the lowercased form of the corresponding source field (the
withdrawal `to` is the lowercase bridge-entry constant, which under the rule
guard equals the lowercased `tx.to`), for the incremental scan and the
backfill alike; consequently the step's output is insensitive to the casing
of the addresses the chain client returns. -/
theorem c9_lowercase_normalization (bn : Nat) (ts : Timestamp) (f : TxFetch)
    (t : Tx) (htx : f.tx = some t) :
    (∀ a ∈ (processTxIncremental bn ts f).1,
        ∃ s, t.fromAddr = some s ∧ a.address = lowerString s) ∧
      (∀ b ∈ (processTxIncremental bn ts f).2,
        (∃ s, t.fromAddr = some s ∧ b.fromAddr = lowerString s) ∧
          b.toAddr = t.toAddr.map lowerString) ∧
      (∀ (db : DB) (a : ActivityEvent),
        a ∈ (processTxBackfill bn ts db f).activity →
          a ∈ db.activity ∨
            ∃ s, t.fromAddr = some s ∧ a.address = lowerString s) ∧
      (∀ (db : DB) (b : BridgeEvent),
        b ∈ (processTxBackfill bn ts db f).bridge →
          b ∈ db.bridge ∨
            ((∃ s, t.fromAddr = some s ∧ b.fromAddr = lowerString s) ∧
              b.toAddr = t.toAddr.map lowerString)) ∧
      ∀ u : Tx, u.fromAddr.map lowerString = t.fromAddr.map lowerString →
        u.toAddr.map lowerString = t.toAddr.map lowerString →
        u.value = t.value → u.txType = t.txType →
        processTxIncremental bn ts
            ⟨f.txHash, some u, f.receiptOk, f.depositAmount⟩ =
          processTxIncremental bn ts f := by
  obtain ⟨hash, tx, rOk, dep⟩ := f
  cases htx
  refine ⟨?_, ?_, ?_, ?_, ?_⟩
  · obtain ⟨fa, ta, v, ty⟩ := t
    cases fa with
    | none => simp [processTxIncremental]
    | some sender =>
      intro a ha
      simp [processTxIncremental] at ha
      exact ⟨sender, rfl, by simp [ha]⟩
  · obtain ⟨fa, ta, v, ty⟩ := t
    cases fa with
    | none => simp [processTxIncremental]
    | some sender =>
      intro b hb
      cases ta with
      | none =>
        by_cases hty : ty = 105 <;> cases rOk <;>
          simp [processTxIncremental, hty] at hb <;>
          exact ⟨⟨sender, rfl, by simp [hb]⟩, by simp [hb]⟩
      | some dest =>
        by_cases hty : ty = 105 <;> cases rOk <;>
          by_cases hw : lowerString dest = ARBSYS_ADDRESS ∧ 0 < v <;>
            simp [processTxIncremental, hty, hw] at hb <;>
            first
              | exact ⟨⟨sender, rfl, by simp [hb]⟩,
                  by simp [hb]; try exact hw.1.symm⟩
              | (rcases hb with hb | hb <;>
                  exact ⟨⟨sender, rfl, by simp [hb]⟩,
                    by simp [hb]; try exact hw.1.symm⟩)
  · obtain ⟨fa, ta, v, ty⟩ := t
    cases fa with
    | none =>
      intro db a ha
      simp only [processTxBackfill] at ha
      exact Or.inl ha
    | some sender =>
      intro db a ha
      have hact :
          (processTxBackfill bn ts db
              ⟨hash, some ⟨some sender, ta, v, ty⟩, rOk, dep⟩).activity =
            db.activity ++ [⟨lowerString sender, ts, bn⟩] := by
        simp only [processTxBackfill]
        cases ta <;> dsimp only <;> repeat' split
        all_goals rfl
      rw [hact] at ha
      rcases List.mem_append.1 ha with h | h
      · exact Or.inl h
      · right
        refine ⟨sender, rfl, ?_⟩
        simp at h
        simp [h]
  · obtain ⟨fa, ta, v, ty⟩ := t
    cases fa with
    | none =>
      intro db b hb
      simp only [processTxBackfill] at hb
      exact Or.inl hb
    | some sender =>
      intro db b hb
      rcases processTxBackfill_bridge_cases bn ts db hash rOk dep sender ta v
          ty with h | ⟨hfr, h⟩ | ⟨dest, hta, hlow, hfr, h⟩
      · rw [h] at hb
        exact Or.inl hb
      · rw [h] at hb
        rcases List.mem_append.1 hb with h1 | h1
        · exact Or.inl h1
        · right
          simp at h1
          exact ⟨⟨sender, rfl, by simp [h1]⟩, by simp [h1]⟩
      · rw [h] at hb
        rcases List.mem_append.1 hb with h1 | h1
        · exact Or.inl h1
        · right
          simp at h1
          refine ⟨⟨sender, rfl, by simp [h1]⟩, ?_⟩
          rw [hta]
          simp [h1, hlow]
  · intro u h1 h2 h3 h4
    rw [processTxIncremental_eq_lowered, processTxIncremental_eq_lowered,
      h1, h2, h3, h4]

/-- C9 witness: the incremental step classifies the concrete mixed-case
transaction identically to its lowercased variant. -/
theorem c9_witness :
    processTxIncremental 9 0
        ⟨"0xd1",
          some ⟨some "0xbbb",
            some "0x0000000000000000000000000000000000000064", 5, 105⟩,
          true, 2⟩ =
      processTxIncremental 9 0 depositWithdrawTxFetch :=
  ((c9_lowercase_normalization 9 0 depositWithdrawTxFetch
        ⟨some "0xBBB", some "0x0000000000000000000000000000000000000064", 5,
          105⟩
        rfl).2.2.2.2)
    ⟨some "0xbbb", some "0x0000000000000000000000000000000000000064", 5, 105⟩
    (by decide) (by decide) rfl rfl

/-- Proof helper: a false `findOneAsync` probe means the hash is not among
the persisted bridge hashes. -/
theorem bridgeHasTx_eq_false (brs : List BridgeEvent) (h : String)
    (hfalse : bridgeHasTx brs h = false) :
    h ∉ brs.map (fun b => b.txHash) := by
  intro hmem
  rcases List.mem_map.1 hmem with ⟨b, hb, hbh⟩
  have htrue : bridgeHasTx brs h = true := by
    simp only [bridgeHasTx, List.any_eq_true, decide_eq_true_eq]
    exact ⟨b, hb, hbh⟩
  rw [htrue] at hfalse
  exact Bool.noConfusion hfalse

/-- Proof helper: appending a bridge row whose hash the `findOneAsync` probe
did not find preserves pairwise distinctness of the persisted hashes. -/
theorem nodup_append_fresh (brs : List BridgeEvent) (e : BridgeEvent)
    (hfresh : bridgeHasTx brs e.txHash = false)
    (h : bridgeHashesNodup brs) : bridgeHashesNodup (brs ++ [e]) := by
  have hnot := bridgeHasTx_eq_false brs e.txHash hfresh
  simp only [bridgeHashesNodup, List.map_append, List.map_cons,
    List.map_nil] at *
  rw [List.nodup_append]
  refine ⟨h, List.nodup_singleton _, ?_⟩
  intro a ha hmem
  simp at hmem
  rw [hmem] at ha
  exact hnot ha

/-- Proof helper: the backfill per-transaction step preserves pairwise
distinctness of the persisted bridge hashes, because every bridge insert is
guarded by the `findOneAsync({ txHash })` probe. -/
theorem processTxBackfill_hashes_nodup (bn : Nat) (ts : Timestamp) (db : DB)
    (f : TxFetch) (h : bridgeHashesNodup db.bridge) :
    bridgeHashesNodup (processTxBackfill bn ts db f).bridge := by
  obtain ⟨hash, tx, rOk, dep⟩ := f
  cases tx with
  | none => exact h
  | some t =>
    obtain ⟨fa, ta, v, ty⟩ := t
    cases fa with
    | none => exact h
    | some sender =>
      rcases processTxBackfill_bridge_cases bn ts db hash rOk dep sender ta v
          ty with heq | ⟨hfr, heq⟩ | ⟨dest, hta, hlow, hfr, heq⟩
      · rw [heq]; exact h
      · rw [heq]; exact nodup_append_fresh db.bridge _ hfr h
      · rw [heq]; exact nodup_append_fresh db.bridge _ hfr h

/-- Proof helper: the backfill per-block step preserves pairwise distinctness
of the persisted bridge hashes. -/
theorem processBlockBackfill_hashes_nodup (db : DB) (b : BlockFetch)
    (h : bridgeHashesNodup db.bridge) :
    bridgeHashesNodup (processBlockBackfill db b).bridge := by
  obtain ⟨bn, ts, txs⟩ := b
  cases txs with
  | none => exact h
  | some fs =>
    simp only [processBlockBackfill]
    induction fs generalizing db with
    | nil => exact h
    | cons f rest ih =>
      simp only [List.foldl_cons]
      exact ih _ (processTxBackfill_hashes_nodup bn ts db f h)

/-- C1 (amended): only the historical backfill performs BridgeEvent writes
conditionally on the `txHash` not being persisted yet, so a backfill scan —
in particular a replay of the same block range twice — never produces two
BridgeEvents with the same `txHash`; the incremental scan
(`processNewBlocks`) inserts BridgeEvents unconditionally, so replaying a
range through it does duplicate BridgeEvents. -/
theorem c1_backfill_txHash_dedup (db : DB) (blocks : List BlockFetch)
    (h : bridgeHashesNodup db.bridge) :
    bridgeHashesNodup (backfillScan db blocks).bridge := by
  induction blocks generalizing db with
  | nil => exact h
  | cons b rest ih =>
    simp only [backfillScan, List.foldl_cons] at *
    exact ih _ (processBlockBackfill_hashes_nodup db b h)

/-- C1 witness: replaying the concrete one-withdrawal block twice through the
backfill leaves the bridge hashes pairwise distinct. -/
theorem c1_witness :
    bridgeHashesNodup
      ((backfillScan ⟨[], []⟩ [withdrawBlock, withdrawBlock]).bridge) :=
  c1_backfill_txHash_dedup ⟨[], []⟩ [withdrawBlock, withdrawBlock] (by decide)

end Partyhouse
